import Mathlib

/-!
Verification of the `md-converter` mapping engine
(`app/services/mapping_service.py`).

Python strings are modelled as `List Char` (a Python `str` is a sequence of
characters; `len`, slicing and `split` are list operations).  The external
collaborators (`BeautifulSoup`, `markdownify`, `uuid`) are opaque per the
spec; a conversion run is therefore parameterised by a `RunOutcome` value
recording what those collaborators produced (or which exception they raised)
during the run.  Everything downstream of those opaque calls is translated
directly from the source.
-/

/-- A Python string: a sequence of characters. -/
abbrev Str := List Char

/-- The characters removed by Python's `str.strip()` (ASCII whitespace:
space, tab, newline, carriage return, vertical tab, form feed). -/
def pyWhitespace (c : Char) : Bool :=
  (c == ' ') || (c == '\t') || (c == '\n') || (c == '\r') ||
  (c == '\x0b') || (c == '\x0c')

/-- Removal of a trailing whitespace run (the right half of `str.strip()`). -/
def rstrip (s : Str) : Str :=
  (s.reverse.dropWhile pyWhitespace).reverse

/-- Python `str.strip()`: drop leading and trailing whitespace. -/
def pyStrip (s : Str) : Str :=
  rstrip (s.dropWhile pyWhitespace)

/-- Python `str.split('\n')`: split on every newline; the result is never
empty (`"".split('\n') == [""]`). -/
def splitLinesOn : Str → List Str
  | [] => [[]]
  | c :: rest =>
    if c = '\n' then [] :: splitLinesOn rest
    else
      match splitLinesOn rest with
      | [] => [[c]]
      | l :: ls => (c :: l) :: ls

/-- Python `'\n'.join(lines)`. -/
def joinLinesOn : List Str → Str
  | [] => []
  | [l] => l
  | l :: ls => l ++ '\n' :: joinLinesOn ls

/-- Decimal digit rendering, accumulator style (fuel-based so that the
definition is structurally recursive; the fuel `n + 1` always suffices
since `n / 10 < n` for `n ≥ 10`). -/
def natDigitsAux : Nat → Nat → List Char → List Char
  | 0, _, acc => acc
  | fuel + 1, n, acc =>
    let d := Nat.digitChar (n % 10)
    if n < 10 then d :: acc else natDigitsAux fuel (n / 10) (d :: acc)

/-- The decimal digits of `n`, as rendered by Python's `"%d"`. -/
def natDigits (n : Nat) : List Char :=
  natDigitsAux (n + 1) n []

/-- Python `f"[\x7bi:03d\x7d]"`: the decimal digits of `i`, zero-padded on
the left to a minimum width of 3, in square brackets.  No truncation: past
999 the width grows with the number. -/
def lineNumberTag (i : Nat) : Str :=
  '[' :: (List.replicate (3 - (natDigits i).length) '0' ++ natDigits i ++ [']'])

/-- `MappingService._add_line_numbers`: prefix every line of the markdown
text with `"[NNN] "` (1-based). -/
def add_line_numbers (markdown_text : Str) : Str :=
  let lines := splitLinesOn markdown_text
  joinLinesOn (lines.enum.map fun p => lineNumberTag (p.1 + 1) ++ ' ' :: p.2)

/-- The `HtmlToMarkdownMapping` dataclass. -/
structure HtmlToMarkdownMapping where
  html_element_id : Str
  html_content : Str
  html_tag : Str
  markdown_line_start : Nat
  markdown_line_end : Nat
  markdown_content : Str
deriving DecidableEq

/-- The dict produced by `MappingService._mapping_to_dict` (the full field
set of a record, as returned to callers). -/
structure MappingDict where
  html_element_id : Str
  html_tag : Str
  html_content : Str
  markdown_line_start : Nat
  markdown_line_end : Nat
  markdown_content : Str
deriving DecidableEq

/-- `MappingService._mapping_to_dict`. -/
def mapping_to_dict (m : HtmlToMarkdownMapping) : MappingDict :=
  { html_element_id := m.html_element_id
    html_tag := m.html_tag
    html_content := m.html_content
    markdown_line_start := m.markdown_line_start
    markdown_line_end := m.markdown_line_end
    markdown_content := m.markdown_content }

instance : DecidableEq (Except Str Str) := fun x y =>
  match x, y with
  | .ok a, .ok b =>
    if h : a = b then .isTrue (by rw [h]) else .isFalse (fun hc => h (by injection hc))
  | .error a, .error b =>
    if h : a = b then .isTrue (by rw [h]) else .isFalse (fun hc => h (by injection hc))
  | .ok _, .error _ => .isFalse (fun hc => Except.noConfusion hc)
  | .error _, .ok _ => .isFalse (fun hc => Except.noConfusion hc)

/-- A first-level `Tag` of the parsed soup, as seen by `_create_mapping`
after `_add_unique_ids` ran: its tag name, its serialization `str(element)`,
the value of its `data-mapping-id` attribute (`[]` when the attribute is
absent or empty, both falsy in Python), and the outcome of rendering it
alone with `markdownify` (`.error msg` when that call raises). -/
structure TagElem where
  name : Str
  serialized : Str
  mappingId : Str
  rendered : Except Str Str
deriving DecidableEq

/-- A direct child of the parsed root: a `Tag`, or any other node kind
(`NavigableString`, comment, ...), which `_create_mapping` skips. -/
inductive SoupChild where
  | tag (e : TagElem)
  | other
deriving DecidableEq

/-- What the opaque collaborators did during one `convert_with_mapping`
call: either some step before the mapping phase raised (`BeautifulSoup`,
`_add_unique_ids`, `str(soup)` or the full-document `markdownify` call), or
they produced the annotated first-level children, the serialized soup and
the full-document markdown. -/
inductive RunOutcome where
  | raiseBeforeMapping (msg : Str)
  | parsed (children : List SoupChild) (soupStr : Str) (rawMarkdown : Str)

/-- The dict returned by `convert_with_mapping`.  `html_with_ids` is absent
(`none`) in the error dict; `error` is absent in the success dict. -/
structure ConvResult where
  original_html_length : Nat
  markdown_result : Str
  html_with_ids : Option Str
  mappings : List MappingDict
  status : Str
  error : Option Str
deriving DecidableEq

/-- The inner `for j, content_line in enumerate(content_lines)` loop of
`_find_content_lines`: the candidate start index `i` matches when every
content line, compared to the corresponding markdown line with surrounding
whitespace stripped, agrees, and no compared index falls past the end of
`markdown_lines`. -/
def linesMatchAt (markdown_lines : List Str) (content_lines : List Str) (i : Nat) : Bool :=
  match content_lines with
  | [] => true
  | c :: cs =>
    decide (i < markdown_lines.length) &&
    (pyStrip (markdown_lines.getD i []) == pyStrip c) &&
    linesMatchAt markdown_lines cs (i + 1)

/-- The outer `for i in range(start_from, len(markdown_lines))` loop of
`_find_content_lines`, with the iteration count made explicit as fuel:
scan forward from `i` for the first matching start index. -/
def findFromAux (markdown_lines content_lines : List Str) : Nat → Nat → Option (Nat × Nat)
  | 0, _ => none
  | n + 1, i =>
    if linesMatchAt markdown_lines content_lines i then
      some (i, i + content_lines.length - 1)
    else
      findFromAux markdown_lines content_lines n (i + 1)

/-- `MappingService._find_content_lines`: the 0-based inclusive line range
of the first occurrence of `content` (line-wise, whitespace-insensitively)
in `markdown_lines` at or after `start_from`; `none` models the `(-1, -1)`
"not found" return. -/
def find_content_lines (markdown_lines : List Str) (content : Str) (start_from : Nat) :
    Option (Nat × Nat) :=
  findFromAux markdown_lines (splitLinesOn content)
    (markdown_lines.length - start_from) start_from

/-- The running state of the `_create_mapping` loop: the records appended to
`self.mappings` so far, `current_line`, and—when a per-element
`markdownify` call raised—the pending exception (which exits the loop and
is caught in `convert_with_mapping`). -/
abbrev MapState := List HtmlToMarkdownMapping × Nat × Option Str

/-- One iteration of the `for element in soup.children` loop of
`_create_mapping`.  A frozen (exception-pending) state passes through
unchanged, modelling the already-exited loop. -/
def create_mapping_step (markdown_lines : List Str) (st : MapState) (child : SoupChild) :
    MapState :=
  match st with
  | (acc, cur, some exc) => (acc, cur, some exc)
  | (acc, cur, none) =>
    match child with
    | .other => (acc, cur, none)
    | .tag e =>
      if e.mappingId = [] then (acc, cur, none)
      else
        match e.rendered with
        | .error msg => (acc, cur, some msg)
        | .ok r =>
          let element_markdown := pyStrip r
          if element_markdown = [] then (acc, cur, none)
          else
            match find_content_lines markdown_lines element_markdown cur with
            | none => (acc, cur, none)
            | some (line_start, line_end) =>
              (acc ++
                [{ html_element_id := e.mappingId
                   html_content := e.serialized
                   html_tag := e.name
                   markdown_line_start := line_start + 1
                   markdown_line_end := line_end + 1
                   markdown_content := element_markdown }],
               line_end, none)

/-- `MappingService._create_mapping`: reset `self.mappings`, then walk the
first-level children in document order.  The returned state holds the
stored mapping list, the final cursor, and the pending exception if a
per-element render raised. -/
def create_mapping (children : List SoupChild) (markdown_text : Str) : MapState :=
  children.foldl (create_mapping_step (splitLinesOn markdown_text)) ([], 0, none)

/-- The `except` branch of `convert_with_mapping`. -/
def errorResult (html_text : Str) (msg : Str) : ConvResult :=
  { original_html_length := html_text.length
    markdown_result := []
    html_with_ids := none
    mappings := []
    status := "error".data
    error := some msg }

/-- `MappingService.convert_with_mapping`, as a function of the opaque
collaborators' outcome, the input text and the previously stored mapping
list.  Returns the result dict together with the mapping list stored on
the service after the call. -/
def convert_with_mapping (outcome : RunOutcome) (html_text : Str)
    (stored : List HtmlToMarkdownMapping) : ConvResult × List HtmlToMarkdownMapping :=
  match outcome with
  | .raiseBeforeMapping msg => (errorResult html_text msg, stored)
  | .parsed children soupStr rawMarkdown =>
    match create_mapping children rawMarkdown with
    | (newMappings, _, some msg) => (errorResult html_text msg, newMappings)
    | (newMappings, _, none) =>
      ({ original_html_length := html_text.length
         markdown_result := pyStrip (add_line_numbers rawMarkdown)
         html_with_ids := some soupStr
         mappings := newMappings.map mapping_to_dict
         status := "converted".data
         error := none },
       newMappings)

/-- Whether (and with which message) some step of parsing, rendering or
mapping raises during a `convert_with_mapping` call with this outcome. -/
def raisedMsg : RunOutcome → Option Str
  | .raiseBeforeMapping msg => some msg
  | .parsed children _ rawMarkdown => (create_mapping children rawMarkdown).2.2

/-- The guard of `find_html_by_line`:
`mapping.markdown_line_start <= line_number <= mapping.markdown_line_end`.
The Python argument is an arbitrary `int`, hence `Int`. -/
def mappingContains (m : HtmlToMarkdownMapping) (line_number : Int) : Bool :=
  decide ((m.markdown_line_start : Int) ≤ line_number) &&
  decide (line_number ≤ (m.markdown_line_end : Int))

/-- `MappingService.find_html_by_line`: the first stored record whose range
contains the line, converted to a dict; `none` models the empty dict. -/
def find_html_by_line (mappings : List HtmlToMarkdownMapping) (line_number : Int) :
    Option MappingDict :=
  (mappings.find? fun m => mappingContains m line_number).map mapping_to_dict

/-- The number of first-level element (`Tag`) children of the parsed root. -/
def countTags (children : List SoupChild) : Nat :=
  children.countP fun c => match c with | .tag _ => true | .other => false

/-! ### Auxiliary definitions for the proofs, and concrete sample data -/

/-- The numbered lines built by `_add_line_numbers` before joining. -/
def numberedLines (s : Str) : List Str :=
  (splitLinesOn s).enum.map fun p => lineNumberTag (p.1 + 1) ++ ' ' :: p.2

/-- Invariant of the `_create_mapping` loop backing the ordering claims:
records already in `self.mappings` have ends bounded by `current_line + 1`
(1-based) and are pairwise ordered end-before-start. -/
def orderedState (st : MapState) : Prop :=
  List.Pairwise (fun a b => a.markdown_line_end ≤ b.markdown_line_start) st.1 ∧
  ∀ m ∈ st.1, m.markdown_line_end ≤ st.2.1 + 1

/-- Invariant of the `_create_mapping` loop backing the well-formed-range
claims. -/
def rangeState (mlLen : Nat) (st : MapState) : Prop :=
  ∀ m ∈ st.1, 1 ≤ m.markdown_line_start ∧ m.markdown_line_start ≤ m.markdown_line_end ∧
    m.markdown_line_end ≤ mlLen ∧
    m.markdown_line_end - m.markdown_line_start + 1 = (splitLinesOn m.markdown_content).length

/-- A first-level `<p>x</p>` element whose individual rendering is the
single line `x`. -/
def xParagraph : TagElem :=
  { name := "p".data, serialized := "<p>x</p>".data, mappingId := "a".data,
    rendered := .ok "x".data }

/-- A first-level `<h1>Title</h1>` element as annotated in a run where the
generated identifier was `a`. -/
def titleHeadingA : TagElem :=
  { name := "h1".data, serialized := "<h1 data-mapping-id=\"a\">Title</h1>".data,
    mappingId := "a".data, rendered := .ok "# Title".data }

/-- The same element as annotated in a second run of the same input, where
the freshly generated identifier was `b` instead. -/
def titleHeadingB : TagElem :=
  { name := "h1".data, serialized := "<h1 data-mapping-id=\"b\">Title</h1>".data,
    mappingId := "b".data, rendered := .ok "# Title".data }

/-- The record produced for `xParagraph` when the full document renders to
the single line `x`. -/
def xpRecord : MappingDict :=
  { html_element_id := "a".data, html_tag := "p".data, html_content := "<p>x</p>".data,
    markdown_line_start := 1, markdown_line_end := 1, markdown_content := "x".data }

/-- A stored mapping record covering lines 1-2, used as `find_html_by_line`
test data. -/
def storedRec : HtmlToMarkdownMapping :=
  { html_element_id := "a".data, html_content := "<p>x</p>".data, html_tag := "p".data,
    markdown_line_start := 1, markdown_line_end := 2, markdown_content := "x".data }

/-- A first-level element whose individual rendering strips to nothing. -/
def blankParagraph : TagElem :=
  { name := "p".data, serialized := "<p> </p>".data, mappingId := "c".data,
    rendered := .ok " ".data }

/-! ### Lemmas about the string model -/

theorem splitLinesOn_ne_nil (s : Str) : splitLinesOn s ≠ [] := by
  cases s with
  | nil => simp [splitLinesOn]
  | cons c rest =>
    simp only [splitLinesOn]
    split
    · simp
    · split <;> simp

theorem mem_splitLinesOn_no_newline (s : Str) : ∀ l ∈ splitLinesOn s, '\n' ∉ l := by
  induction s with
  | nil => simp [splitLinesOn]
  | cons c rest ih =>
    intro l hl
    simp only [splitLinesOn] at hl
    by_cases hc : c = '\n'
    · rw [if_pos hc] at hl
      rcases List.mem_cons.mp hl with h | h
      · simp [h]
      · exact ih l h
    · rw [if_neg hc] at hl
      rcases hsp : splitLinesOn rest with _ | ⟨l₀, ls⟩
      · exact absurd hsp (splitLinesOn_ne_nil rest)
      · rw [hsp] at hl
        rcases List.mem_cons.mp hl with h | h
        · subst h
          intro hmem
          rcases List.mem_cons.mp hmem with h | h
          · exact hc h.symm
          · exact ih l₀ (by rw [hsp]; exact List.mem_cons_self _ _) h
        · exact ih l (by rw [hsp]; exact List.mem_cons_of_mem _ h)

theorem splitLinesOn_of_no_newline (l : Str) (h : '\n' ∉ l) : splitLinesOn l = [l] := by
  induction l with
  | nil => simp [splitLinesOn]
  | cons c rest ih =>
    have hc : c ≠ '\n' := fun hc => h (hc ▸ List.mem_cons_self _ _)
    have hrest : '\n' ∉ rest := fun hm => h (List.mem_cons_of_mem _ hm)
    simp only [splitLinesOn, if_neg hc, ih hrest]

theorem splitLinesOn_append_newline (l t : Str) (h : '\n' ∉ l) :
    splitLinesOn (l ++ '\n' :: t) = l :: splitLinesOn t := by
  induction l with
  | nil => simp [splitLinesOn]
  | cons c rest ih =>
    have hc : c ≠ '\n' := fun hc => h (hc ▸ List.mem_cons_self _ _)
    have hrest : '\n' ∉ rest := fun hm => h (List.mem_cons_of_mem _ hm)
    simp only [List.cons_append, splitLinesOn, if_neg hc, List.append_eq, ih hrest]

theorem splitLinesOn_joinLinesOn (ls : List Str) (hne : ls ≠ [])
    (h : ∀ l ∈ ls, '\n' ∉ l) : splitLinesOn (joinLinesOn ls) = ls := by
  induction ls with
  | nil => exact absurd rfl hne
  | cons l rest ih =>
    cases rest with
    | nil =>
      simp only [joinLinesOn]
      exact splitLinesOn_of_no_newline l (h l (List.mem_cons_self _ _))
    | cons l₂ rest₂ =>
      have hjoin : joinLinesOn (l :: l₂ :: rest₂) = l ++ '\n' :: joinLinesOn (l₂ :: rest₂) := rfl
      rw [hjoin, splitLinesOn_append_newline l _ (h l (List.mem_cons_self _ _))]
      rw [ih (by simp) (fun x hx => h x (List.mem_cons_of_mem _ hx))]

theorem splitLinesOn_length (s : Str) : (splitLinesOn s).length = s.count '\n' + 1 := by
  induction s with
  | nil => simp [splitLinesOn]
  | cons c rest ih =>
    simp only [splitLinesOn]
    by_cases hc : c = '\n'
    · rw [if_pos hc, hc]
      simp [List.count_cons, ih]
    · rw [if_neg hc]
      rcases hsp : splitLinesOn rest with _ | ⟨l₀, ls⟩
      · exact absurd hsp (splitLinesOn_ne_nil rest)
      · rw [hsp] at ih
        simp only [List.length_cons] at ih ⊢
        rw [List.count_cons]
        simp only [beq_iff_eq, if_neg (fun hcontra => hc hcontra)]
        omega

theorem mem_joinLinesOn_head (c : Char) (l : Str) (ls : List Str) (h : c ∈ l) :
    c ∈ joinLinesOn (l :: ls) := by
  cases ls with
  | nil => simpa [joinLinesOn] using h
  | cons l₂ rest => exact List.mem_append_left _ h

theorem dropWhile_append_of_exists {α : Type} (p : α → Bool) (x y : List α)
    (h : ∃ c ∈ x, p c = false) :
    List.dropWhile p (x ++ y) = List.dropWhile p x ++ y := by
  induction x with
  | nil => rcases h with ⟨c, hc, _⟩; cases hc
  | cons a x ih =>
    by_cases ha : p a
    · have hx : ∃ c ∈ x, p c = false := by
        rcases h with ⟨c, hc, hpc⟩
        rcases List.mem_cons.mp hc with rfl | hcx
        · rw [ha] at hpc; cases hpc
        · exact ⟨c, hcx, hpc⟩
      simp only [List.cons_append, List.dropWhile_cons, ha, if_true, ih hx]
    · simp [List.cons_append, List.dropWhile_cons, ha]

theorem rstrip_append_right (x y : Str) (h : ∃ c ∈ y, pyWhitespace c = false) :
    rstrip (x ++ y) = x ++ rstrip y := by
  unfold rstrip
  rw [List.reverse_append,
    dropWhile_append_of_exists pyWhitespace y.reverse x.reverse
      (by rcases h with ⟨c, hc, hpc⟩; exact ⟨c, List.mem_reverse.mpr hc, hpc⟩),
    List.reverse_append, List.reverse_reverse]

theorem count_rstrip_of_no_newline (l : Str) (h : '\n' ∉ l) : (rstrip l).count '\n' = 0 := by
  have hsub : (rstrip l).Sublist l := by
    unfold rstrip
    have h1 : (l.reverse.dropWhile pyWhitespace).Sublist l.reverse := List.dropWhile_sublist _
    have := h1.reverse
    rwa [List.reverse_reverse] at this
  have h0 : l.count '\n' = 0 := List.count_eq_zero.mpr h
  have := hsub.count_le '\n'
  omega

theorem count_rstrip_joinLinesOn (ls : List Str)
    (hnl : ∀ l ∈ ls, '\n' ∉ l) (hw : ∀ l ∈ ls, ∃ c ∈ l, pyWhitespace c = false) :
    (rstrip (joinLinesOn ls)).count '\n' = (joinLinesOn ls).count '\n' := by
  induction ls with
  | nil => simp [joinLinesOn, rstrip]
  | cons l rest ih =>
    cases rest with
    | nil =>
      simp only [joinLinesOn]
      rw [count_rstrip_of_no_newline l (hnl l (List.mem_cons_self _ _)),
        List.count_eq_zero.mpr (hnl l (List.mem_cons_self _ _))]
    | cons l₂ rest₂ =>
      have hjoin : joinLinesOn (l :: l₂ :: rest₂) = l ++ '\n' :: joinLinesOn (l₂ :: rest₂) := rfl
      have hJw : ∃ c ∈ joinLinesOn (l₂ :: rest₂), pyWhitespace c = false := by
        rcases hw l₂ (List.mem_cons_of_mem _ (List.mem_cons_self _ _)) with ⟨c, hc, hpc⟩
        exact ⟨c, mem_joinLinesOn_head c l₂ rest₂ hc, hpc⟩
      have hJw' : ∃ c ∈ '\n' :: joinLinesOn (l₂ :: rest₂), pyWhitespace c = false := by
        rcases hJw with ⟨c, hc, hpc⟩
        exact ⟨c, List.mem_cons_of_mem _ hc, hpc⟩
      have hsingle : '\n' :: joinLinesOn (l₂ :: rest₂) = ['\n'] ++ joinLinesOn (l₂ :: rest₂) := rfl
      rw [hjoin, rstrip_append_right l ('\n' :: joinLinesOn (l₂ :: rest₂)) hJw', hsingle,
        rstrip_append_right ['\n'] (joinLinesOn (l₂ :: rest₂)) hJw]
      simp only [List.count_append, List.count_cons, List.count_singleton]
      rw [ih (fun x hx => hnl x (List.mem_cons_of_mem _ hx))
        (fun x hx => hw x (List.mem_cons_of_mem _ hx))]

theorem digitChar_ne_newline (n : Nat) : Nat.digitChar (n % 10) ≠ '\n' := by
  have h : n % 10 < 10 := Nat.mod_lt _ (by norm_num)
  generalize hm : n % 10 = m at h ⊢
  interval_cases m <;> decide

theorem natDigitsAux_ne_newline (fuel n : Nat) (acc : List Char)
    (hacc : ∀ c ∈ acc, c ≠ '\n') : ∀ c ∈ natDigitsAux fuel n acc, c ≠ '\n' := by
  induction fuel generalizing n acc with
  | zero => exact hacc
  | succ fuel ih =>
    simp only [natDigitsAux]
    split
    · intro c hc
      rcases List.mem_cons.mp hc with rfl | hcm
      · exact digitChar_ne_newline n
      · exact hacc c hcm
    · exact ih (n / 10) _ (fun c hc => by
        rcases List.mem_cons.mp hc with rfl | hcm
        · exact digitChar_ne_newline n
        · exact hacc c hcm)

theorem natDigits_ne_newline (n : Nat) : ∀ c ∈ natDigits n, c ≠ '\n' :=
  natDigitsAux_ne_newline (n + 1) n [] (by simp)

theorem lineNumberTag_ne_newline (i : Nat) : '\n' ∉ lineNumberTag i := by
  intro h
  rcases List.mem_cons.mp h with h | h
  · cases h
  rcases List.mem_append.mp h with h | h
  · rcases List.mem_append.mp h with h | h
    · cases (List.mem_replicate.mp h).2
    · exact natDigits_ne_newline i '\n' h rfl
  · cases List.mem_singleton.mp h

theorem natDigitsAux_length_ge (fuel : Nat) :
    ∀ n acc k, 10 ^ k ≤ n → n < fuel → acc.length + k + 1 ≤ (natDigitsAux fuel n acc).length := by
  induction fuel with
  | zero => intro n acc k _ h; omega
  | succ fuel ih =>
    intro n acc k hk hfuel
    simp only [natDigitsAux]
    split
    · rename_i hlt
      have hk0 : k = 0 := by
        by_contra hne
        have h10 : (10 : Nat) ≤ 10 ^ k := by
          calc (10 : Nat) = 10 ^ 1 := by norm_num
          _ ≤ 10 ^ k := Nat.pow_le_pow_right (by norm_num) (by omega)
        omega
      subst hk0
      simp
    · rename_i hge
      push_neg at hge
      have hn0 : 0 < n := by omega
      have hdiv_lt : n / 10 < fuel :=
        lt_of_lt_of_le (Nat.div_lt_self hn0 (by norm_num)) (by omega)
      cases k with
      | zero =>
        have hd : 1 ≤ n / 10 := (Nat.one_le_div_iff (by norm_num)).mpr hge
        have := ih (n / 10) (Nat.digitChar (n % 10) :: acc) 0 (by simpa using hd) hdiv_lt
        simp only [List.length_cons] at this
        omega
      | succ k =>
        have hdivk : 10 ^ k ≤ n / 10 := by
          rw [Nat.le_div_iff_mul_le (by norm_num)]
          calc 10 ^ k * 10 = 10 ^ (k + 1) := by ring
          _ ≤ n := hk
        have := ih (n / 10) (Nat.digitChar (n % 10) :: acc) k hdivk hdiv_lt
        simp only [List.length_cons] at this
        omega

theorem natDigits_length_ge (n k : Nat) (h : 10 ^ k ≤ n) : k + 1 ≤ (natDigits n).length := by
  have := natDigitsAux_length_ge (n + 1) n [] k h (by omega)
  simpa using this

theorem lineNumberTag_no_pad_past_999 (n : Nat) (h : 1000 ≤ n) :
    lineNumberTag n = '[' :: (natDigits n ++ [']']) := by
  have h4 : 4 ≤ (natDigits n).length := by
    have := natDigits_length_ge n 3 (by norm_num; omega)
    omega
  simp only [lineNumberTag]
  rw [show 3 - (natDigits n).length = 0 by omega]
  simp

theorem snd_mem_of_mem_enumFrom {α : Type} (p : Nat × α) :
    ∀ (n : Nat) (l : List α), p ∈ List.enumFrom n l → p.2 ∈ l := by
  intro n l
  induction l generalizing n with
  | nil => intro h; cases h
  | cons x xs ih =>
    intro h
    rcases List.mem_cons.mp h with h | h
    · subst h; exact List.mem_cons_self _ _
    · exact List.mem_cons_of_mem _ (ih _ h)

theorem joinLinesOn_head_cons (c : Char) (a : Str) (ls : List Str) :
    ∃ t, joinLinesOn ((c :: a) :: ls) = c :: t := by
  cases ls with
  | nil => exact ⟨a, rfl⟩
  | cons l₂ rest => exact ⟨a ++ '\n' :: joinLinesOn (l₂ :: rest), rfl⟩

theorem numberedLines_length (s : Str) :
    (numberedLines s).length = (splitLinesOn s).length := by
  simp [numberedLines]

theorem numberedLines_ne_nil (s : Str) : numberedLines s ≠ [] := by
  intro h
  have hl := congrArg List.length h
  rw [numberedLines_length, splitLinesOn_length] at hl
  simp at hl

theorem mem_numberedLines_no_newline (s : Str) : ∀ l ∈ numberedLines s, '\n' ∉ l := by
  intro l hl
  simp only [numberedLines, List.mem_map] at hl
  rcases hl with ⟨p, hp, rfl⟩
  intro hmem
  rcases List.mem_append.mp hmem with h | h
  · exact lineNumberTag_ne_newline _ h
  · rcases List.mem_cons.mp h with h | h
    · cases h
    · exact mem_splitLinesOn_no_newline s p.2 (snd_mem_of_mem_enumFrom p 0 _ hp) h

theorem mem_numberedLines_has_nonwsp (s : Str) :
    ∀ l ∈ numberedLines s, ∃ c ∈ l, pyWhitespace c = false := by
  intro l hl
  simp only [numberedLines, List.mem_map] at hl
  rcases hl with ⟨p, _, rfl⟩
  exact ⟨'[', List.mem_append_left _ (by simp [lineNumberTag]), by decide⟩

theorem add_line_numbers_eq_joined (s : Str) :
    add_line_numbers s = joinLinesOn (numberedLines s) := rfl

theorem splitLinesOn_add_line_numbers (s : Str) :
    splitLinesOn (add_line_numbers s) = numberedLines s := by
  rw [add_line_numbers_eq_joined]
  exact splitLinesOn_joinLinesOn _ (numberedLines_ne_nil s) (mem_numberedLines_no_newline s)

theorem add_line_numbers_head (s : Str) : ∃ t, add_line_numbers s = '[' :: t := by
  rcases hnl : numberedLines s with _ | ⟨l₀, rest⟩
  · exact absurd hnl (numberedLines_ne_nil s)
  · have hmem : l₀ ∈ numberedLines s := by rw [hnl]; exact List.mem_cons_self _ _
    simp only [numberedLines, List.mem_map] at hmem
    rcases hmem with ⟨p, _, hp⟩
    have hl₀ : ∃ a, l₀ = '[' :: a := ⟨_, by rw [← hp]; rfl⟩
    rcases hl₀ with ⟨a, ha⟩
    rw [add_line_numbers_eq_joined, hnl, ha]
    exact joinLinesOn_head_cons '[' a rest

theorem count_pyStrip_add_line_numbers (s : Str) :
    (pyStrip (add_line_numbers s)).count '\n' = (add_line_numbers s).count '\n' := by
  rcases add_line_numbers_head s with ⟨t, ht⟩
  have hdrop : (add_line_numbers s).dropWhile pyWhitespace = add_line_numbers s := by
    rw [ht, List.dropWhile_cons]
    simp [show pyWhitespace '[' = false from rfl]
  unfold pyStrip
  rw [hdrop, add_line_numbers_eq_joined]
  exact count_rstrip_joinLinesOn _ (mem_numberedLines_no_newline s)
    (mem_numberedLines_has_nonwsp s)

theorem line_count_pyStrip_add_line_numbers (s : Str) :
    (splitLinesOn (pyStrip (add_line_numbers s))).length = (splitLinesOn s).length := by
  rw [splitLinesOn_length, count_pyStrip_add_line_numbers, ← splitLinesOn_length,
    splitLinesOn_add_line_numbers, numberedLines_length]

/-! ### Lemmas about the reconciliation search -/

theorem linesMatchAt_bound (ml : List Str) :
    ∀ (cl : List Str) (i : Nat), cl ≠ [] → linesMatchAt ml cl i = true →
      i + cl.length ≤ ml.length := by
  intro cl
  induction cl with
  | nil => intro i h; exact absurd rfl h
  | cons c cs ih =>
    intro i _ h
    simp only [linesMatchAt, Bool.and_eq_true, decide_eq_true_eq] at h
    rcases h with ⟨⟨hi, _⟩, hrest⟩
    by_cases hcs : cs = []
    · subst hcs; simpa using hi
    · have := ih (i + 1) hcs hrest
      simp only [List.length_cons]
      omega

theorem findFromAux_some (ml cl : List Str) :
    ∀ (n i ls le : Nat), findFromAux ml cl n i = some (ls, le) →
      i ≤ ls ∧ ls < i + n ∧ linesMatchAt ml cl ls = true ∧ le = ls + cl.length - 1 ∧
      ∀ k, i ≤ k → k < ls → linesMatchAt ml cl k = false := by
  intro n
  induction n with
  | zero => intro i ls le h; cases h
  | succ n ih =>
    intro i ls le h
    simp only [findFromAux] at h
    by_cases hm : linesMatchAt ml cl i = true
    · rw [if_pos hm] at h
      injection h with h'
      injection h' with h1 h2
      subst h1; subst h2
      exact ⟨le_refl _, by omega, hm, rfl, fun k hk1 hk2 => by omega⟩
    · rw [if_neg hm] at h
      rcases ih (i + 1) ls le h with ⟨h1, h2, h3, h4, h5⟩
      refine ⟨by omega, by omega, h3, h4, fun k hk1 hk2 => ?_⟩
      rcases Nat.eq_or_lt_of_le hk1 with rfl | hlt
      · exact Bool.not_eq_true _ ▸ (by simpa using hm)
      · exact h5 k (by omega) hk2

theorem findFromAux_none (ml cl : List Str) :
    ∀ (n i : Nat), findFromAux ml cl n i = none →
      ∀ k, i ≤ k → k < i + n → linesMatchAt ml cl k = false := by
  intro n
  induction n with
  | zero => intro i _ k hk1 hk2; omega
  | succ n ih =>
    intro i h k hk1 hk2
    simp only [findFromAux] at h
    by_cases hm : linesMatchAt ml cl i = true
    · rw [if_pos hm] at h; cases h
    · rw [if_neg hm] at h
      rcases Nat.eq_or_lt_of_le hk1 with rfl | hlt
      · simpa using hm
      · exact ih (i + 1) h k (by omega) (by omega)

theorem findFromAux_none_of (ml cl : List Str) :
    ∀ (n i : Nat), (∀ k, i ≤ k → k < i + n → linesMatchAt ml cl k = false) →
      findFromAux ml cl n i = none := by
  intro n
  induction n with
  | zero => intro i _; rfl
  | succ n ih =>
    intro i h
    simp only [findFromAux]
    have hi : linesMatchAt ml cl i = false := h i (le_refl _) (by omega)
    rw [if_neg (by simp [hi])]
    exact ih (i + 1) (fun k hk1 hk2 => h k (by omega) (by omega))

theorem find_content_lines_some (ml : List Str) (content : Str) (start_from ls le : Nat)
    (h : find_content_lines ml content start_from = some (ls, le)) :
    start_from ≤ ls ∧ ls < ml.length ∧
    linesMatchAt ml (splitLinesOn content) ls = true ∧
    le = ls + (splitLinesOn content).length - 1 ∧
    ∀ k, start_from ≤ k → k < ls → linesMatchAt ml (splitLinesOn content) k = false := by
  unfold find_content_lines at h
  rcases findFromAux_some ml (splitLinesOn content) _ _ _ _ h with ⟨h1, h2, h3, h4, h5⟩
  have hlt : start_from < ml.length := by
    by_contra hge
    push_neg at hge
    rw [Nat.sub_eq_zero_of_le hge] at h
    cases h
  exact ⟨h1, by omega, h3, h4, h5⟩

theorem find_content_lines_none_iff (ml : List Str) (content : Str) (start_from : Nat) :
    find_content_lines ml content start_from = none ↔
      ∀ k, start_from ≤ k → k < ml.length →
        linesMatchAt ml (splitLinesOn content) k = false := by
  constructor
  · intro h k hk1 hk2
    unfold find_content_lines at h
    exact findFromAux_none ml (splitLinesOn content) _ _ h k hk1 (by omega)
  · intro h
    unfold find_content_lines
    exact findFromAux_none_of ml (splitLinesOn content) _ _
      (fun k hk1 hk2 => h k hk1 (by omega))

/-! ### Lemmas about the mapping loop -/

theorem create_mapping_step_cases (ml : List Str) (st : MapState) (c : SoupChild) :
    create_mapping_step ml st c = st ∨
    (∃ msg, st.2.2 = none ∧ create_mapping_step ml st c = (st.1, st.2.1, some msg)) ∨
    (∃ e r ls le, c = .tag e ∧ st.2.2 = none ∧ e.mappingId ≠ [] ∧ e.rendered = .ok r ∧
      pyStrip r ≠ [] ∧ find_content_lines ml (pyStrip r) st.2.1 = some (ls, le) ∧
      st.2.1 ≤ ls ∧ le = ls + (splitLinesOn (pyStrip r)).length - 1 ∧
      1 ≤ (splitLinesOn (pyStrip r)).length ∧
      ls + (splitLinesOn (pyStrip r)).length ≤ ml.length ∧
      create_mapping_step ml st c =
        (st.1 ++ [{ html_element_id := e.mappingId, html_content := e.serialized,
                    html_tag := e.name, markdown_line_start := ls + 1,
                    markdown_line_end := le + 1, markdown_content := pyStrip r }], le, none)) := by
  rcases st with ⟨acc, cur, exc⟩
  cases exc with
  | some msg => exact Or.inl rfl
  | none =>
    cases c with
    | other => exact Or.inl rfl
    | tag e =>
      by_cases hid : e.mappingId = []
      · exact Or.inl (by simp only [create_mapping_step, if_pos hid])
      · cases hr : e.rendered with
        | error msg =>
          refine Or.inr (Or.inl ⟨msg, rfl, ?_⟩)
          simp only [create_mapping_step, if_neg hid, hr]
        | ok r =>
          by_cases hne : pyStrip r = []
          · refine Or.inl ?_
            simp only [create_mapping_step, if_neg hid, hr, if_pos hne]
          · cases hfind : find_content_lines ml (pyStrip r) cur with
            | none =>
              refine Or.inl ?_
              simp only [create_mapping_step, if_neg hid, hr, if_neg hne, hfind]
            | some p =>
              rcases p with ⟨ls, le⟩
              rcases find_content_lines_some ml (pyStrip r) cur ls le hfind with
                ⟨h1, h2, h3, h4, _⟩
              have hL : 1 ≤ (splitLinesOn (pyStrip r)).length := by
                rcases hsp : splitLinesOn (pyStrip r) with _ | ⟨x, xs⟩
                · exact absurd hsp (splitLinesOn_ne_nil _)
                · simp
              have hbound : ls + (splitLinesOn (pyStrip r)).length ≤ ml.length :=
                linesMatchAt_bound ml (splitLinesOn (pyStrip r)) ls
                  (splitLinesOn_ne_nil _) h3
              refine Or.inr (Or.inr ⟨e, r, ls, le, rfl, rfl, hid, hr, hne, hfind,
                h1, h4, hL, hbound, ?_⟩)
              simp only [create_mapping_step, if_neg hid, hr, if_neg hne, hfind]

theorem foldl_preserve {σ α : Type} (step : σ → α → σ) (P : σ → Prop)
    (hstep : ∀ s a, P s → P (step s a)) :
    ∀ (l : List α) (s : σ), P s → P (l.foldl step s) := by
  intro l
  induction l with
  | nil => intro s hs; exact hs
  | cons a l ih => intro s hs; exact ih _ (hstep s a hs)

theorem create_mapping_step_ordered (ml : List Str) (st : MapState) (c : SoupChild)
    (h : orderedState st) : orderedState (create_mapping_step ml st c) := by
  rcases create_mapping_step_cases ml st c with heq | ⟨msg, _, heq⟩ |
    ⟨e, r, ls, le, _, _, _, _, _, _, hcur, hle, hL, _, heq⟩
  · rwa [heq]
  · rw [heq]; exact ⟨h.1, h.2⟩
  · rw [heq]
    constructor
    · rw [List.pairwise_append]
      refine ⟨h.1, List.pairwise_singleton _ _, ?_⟩
      intro a ha b hb
      rw [List.mem_singleton] at hb
      subst hb
      have ha' := h.2 a ha
      show a.markdown_line_end ≤ ls + 1
      omega
    · intro m hm
      rcases List.mem_append.mp hm with hm | hm
      · have hm' := h.2 m hm
        show m.markdown_line_end ≤ le + 1
        omega
      · rw [List.mem_singleton] at hm
        subst hm
        show le + 1 ≤ le + 1
        exact le_refl _

theorem create_mapping_ordered (children : List SoupChild) (markdown_text : Str) :
    List.Pairwise (fun a b => a.markdown_line_end ≤ b.markdown_line_start)
      (create_mapping children markdown_text).1 :=
  (foldl_preserve _ orderedState
    (fun s a => create_mapping_step_ordered (splitLinesOn markdown_text) s a)
    children ([], 0, none) ⟨List.Pairwise.nil, by simp⟩).1

theorem create_mapping_step_range (ml : List Str) (st : MapState) (c : SoupChild)
    (h : rangeState ml.length st) : rangeState ml.length (create_mapping_step ml st c) := by
  rcases create_mapping_step_cases ml st c with heq | ⟨msg, _, heq⟩ |
    ⟨e, r, ls, le, _, _, _, _, _, _, hcur, hle, hL, hbound, heq⟩
  · rwa [heq]
  · rw [heq]; exact h
  · rw [heq]
    intro m hm
    rcases List.mem_append.mp hm with hm | hm
    · exact h m hm
    · rw [List.mem_singleton] at hm
      subst hm
      refine ⟨by show 1 ≤ ls + 1; omega, by show ls + 1 ≤ le + 1; omega,
        by show le + 1 ≤ ml.length; omega, ?_⟩
      show le + 1 - (ls + 1) + 1 = (splitLinesOn (pyStrip r)).length
      omega

theorem create_mapping_range (children : List SoupChild) (markdown_text : Str) :
    rangeState (splitLinesOn markdown_text).length
      (create_mapping children markdown_text) :=
  foldl_preserve _ (rangeState (splitLinesOn markdown_text).length)
    (fun s a => create_mapping_step_range (splitLinesOn markdown_text) s a)
    children ([], 0, none) (by intro m hm; cases hm)

theorem create_mapping_length_le (ml : List Str) :
    ∀ (cs : List SoupChild) (st : MapState),
      (cs.foldl (create_mapping_step ml) st).1.length ≤ st.1.length + countTags cs := by
  intro cs
  induction cs with
  | nil => intro st; simp [countTags]
  | cons c rest ih =>
    intro st
    cases c with
    | other =>
      have hstep : (create_mapping_step ml st .other).1.length ≤ st.1.length := by
        rcases create_mapping_step_cases ml st .other with heq | ⟨_, _, heq⟩ |
          ⟨e, r, ls, le, hc, _, _, _, _, _, _, _, _, _, heq⟩
        · rw [heq]
        · rw [heq]
        · cases hc
      have hcount : countTags (SoupChild.other :: rest) = countTags rest := by
        simp [countTags, List.countP_cons]
      rw [List.foldl_cons, hcount]
      have := ih (create_mapping_step ml st .other)
      omega
    | tag e₀ =>
      have hstep : (create_mapping_step ml st (.tag e₀)).1.length ≤ st.1.length + 1 := by
        rcases create_mapping_step_cases ml st (.tag e₀) with heq | ⟨_, _, heq⟩ |
          ⟨e, r, ls, le, hc, _, _, _, _, _, _, _, _, _, heq⟩
        · rw [heq]; omega
        · rw [heq]; show st.1.length ≤ st.1.length + 1; omega
        · rw [heq]; simp
      have hcount : countTags (SoupChild.tag e₀ :: rest) = countTags rest + 1 := by
        simp [countTags, List.countP_cons]
      rw [List.foldl_cons, hcount]
      have := ih (create_mapping_step ml st (.tag e₀))
      omega

theorem create_mapping_step_skip_empty (ml : List Str) (acc : List HtmlToMarkdownMapping)
    (cur : Nat) (e : TagElem) (r : Str) (hid : e.mappingId ≠ [])
    (hr : e.rendered = .ok r) (hne : pyStrip r = []) :
    create_mapping_step ml (acc, cur, none) (.tag e) = (acc, cur, none) := by
  simp only [create_mapping_step, if_neg hid, hr, if_pos hne]

theorem create_mapping_step_skip_nomatch (ml : List Str) (acc : List HtmlToMarkdownMapping)
    (cur : Nat) (e : TagElem) (r : Str) (hid : e.mappingId ≠ [])
    (hr : e.rendered = .ok r) (hne : pyStrip r ≠ [])
    (hfind : find_content_lines ml (pyStrip r) cur = none) :
    create_mapping_step ml (acc, cur, none) (.tag e) = (acc, cur, none) := by
  simp only [create_mapping_step, if_neg hid, hr, if_neg hne, hfind]

theorem create_mapping_step_record (ml : List Str) (acc : List HtmlToMarkdownMapping)
    (cur : Nat) (e : TagElem) (r : Str) (ls le : Nat) (hid : e.mappingId ≠ [])
    (hr : e.rendered = .ok r) (hne : pyStrip r ≠ [])
    (hfind : find_content_lines ml (pyStrip r) cur = some (ls, le)) :
    create_mapping_step ml (acc, cur, none) (.tag e) =
      (acc ++ [{ html_element_id := e.mappingId, html_content := e.serialized,
                 html_tag := e.name, markdown_line_start := ls + 1,
                 markdown_line_end := le + 1, markdown_content := pyStrip r }],
       le, none) := by
  simp only [create_mapping_step, if_neg hid, hr, if_neg hne, hfind]

theorem create_mapping_step_raise (ml : List Str) (acc : List HtmlToMarkdownMapping)
    (cur : Nat) (e : TagElem) (msg : Str) (hid : e.mappingId ≠ [])
    (hr : e.rendered = .error msg) :
    create_mapping_step ml (acc, cur, none) (.tag e) = (acc, cur, some msg) := by
  simp only [create_mapping_step, if_neg hid, hr]

theorem find_first_of_find?_eq_some {α : Type} (p : α → Bool) :
    ∀ (l : List α) (a : α), l.find? p = some a →
      ∃ l₁ l₂, l = l₁ ++ a :: l₂ ∧ p a = true ∧ ∀ b ∈ l₁, p b = false := by
  intro l
  induction l with
  | nil => intro a h; cases h
  | cons x xs ih =>
    intro a h
    by_cases hx : p x = true
    · rw [List.find?_cons_of_pos _ hx] at h
      injection h with h
      subst h
      exact ⟨[], xs, rfl, hx, by simp⟩
    · rw [List.find?_cons_of_neg _ (by simpa using hx)] at h
      rcases ih a h with ⟨l₁, l₂, rfl, hpa, hl₁⟩
      refine ⟨x :: l₁, l₂, rfl, hpa, fun b hb => ?_⟩
      rcases List.mem_cons.mp hb with rfl | hb
      · simpa using hx
      · exact hl₁ b hb

theorem convert_with_mapping_raise_eq (msg html : Str) (st : List HtmlToMarkdownMapping) :
    convert_with_mapping (.raiseBeforeMapping msg) html st = (errorResult html msg, st) := rfl

theorem convert_with_mapping_parsed_err (children : List SoupChild) (soupStr raw html : Str)
    (st newMappings : List HtmlToMarkdownMapping) (cur : Nat) (msg : Str)
    (h : create_mapping children raw = (newMappings, cur, some msg)) :
    convert_with_mapping (.parsed children soupStr raw) html st =
      (errorResult html msg, newMappings) := by
  simp only [convert_with_mapping, h]

theorem convert_with_mapping_parsed_ok (children : List SoupChild) (soupStr raw html : Str)
    (st newMappings : List HtmlToMarkdownMapping) (cur : Nat)
    (h : create_mapping children raw = (newMappings, cur, none)) :
    convert_with_mapping (.parsed children soupStr raw) html st =
      ({ original_html_length := html.length
         markdown_result := pyStrip (add_line_numbers raw)
         html_with_ids := some soupStr
         mappings := newMappings.map mapping_to_dict
         status := "converted".data
         error := none },
       newMappings) := by
  simp only [convert_with_mapping, h]

theorem splitLinesOn_length_pos (s : Str) : 1 ≤ (splitLinesOn s).length := by
  rw [splitLinesOn_length]; omega

/-! ### The claims -/

/-- C1, counterexample: the claimed pairwise disjointness of mapping ranges
fails.  Two first-level elements that both render to the line `x`, in a
document whose full rendering is `x\n\nx`, are both mapped to the range
`[1, 1]`: the search for the second fragment restarts at the cursor
`line_end` of the first match (not one past it), so the same line is
claimed twice. -/
theorem c1_counterexample :
    ¬ List.Pairwise (fun a b => a.markdown_line_end < b.markdown_line_start)
      ((convert_with_mapping
        (.parsed [.tag xParagraph, .tag xParagraph]
          "<p>x</p><p>x</p>".data "x\n\nx".data)
        "<p>x</p><p>x</p>".data []).1.mappings) := by
  decide

/-- C1, amended: the ranges of the records produced by any
`convert_with_mapping` call are monotonically non-decreasing in document
order — each earlier record's `markdown_line_end` is at most each later
record's `markdown_line_start` — so two ranges can share at most the
single boundary line on which the earlier one ends. -/
theorem c1_mappings_ordered (outcome : RunOutcome) (html : Str)
    (st : List HtmlToMarkdownMapping) :
    List.Pairwise (fun a b => a.markdown_line_end ≤ b.markdown_line_start)
      ((convert_with_mapping outcome html st).1.mappings) := by
  cases outcome with
  | raiseBeforeMapping msg =>
    rw [convert_with_mapping_raise_eq]
    exact List.Pairwise.nil
  | parsed children soupStr raw =>
    rcases hcm : create_mapping children raw with ⟨nm, cur, exc⟩
    cases exc with
    | some msg =>
      rw [convert_with_mapping_parsed_err children soupStr raw html st nm cur msg hcm]
      exact List.Pairwise.nil
    | none =>
      rw [convert_with_mapping_parsed_ok children soupStr raw html st nm cur hcm]
      show List.Pairwise _ (nm.map mapping_to_dict)
      rw [List.pairwise_map]
      have h := create_mapping_ordered children raw
      rw [hcm] at h
      exact List.Pairwise.imp (fun hab => hab) h

/-- C2: when a non-empty trimmed element fragment is found, the search
returns the least index `ls ≥ cursor` at which every fragment line matches
the corresponding raw-markdown line after stripping surrounding whitespace,
the appended record carries `markdown_line_start = ls + 1` and
`markdown_line_end = ls + (number of fragment lines)`, and the cursor
advances to `ls + (number of fragment lines) - 1` (the 0-based inclusive
end of the match). -/
theorem c2_search_and_record (ml : List Str) (e : TagElem) (r : Str)
    (acc : List HtmlToMarkdownMapping) (cur ls le : Nat)
    (hid : e.mappingId ≠ []) (hr : e.rendered = Except.ok r) (hne : pyStrip r ≠ [])
    (hfind : find_content_lines ml (pyStrip r) cur = some (ls, le)) :
    cur ≤ ls ∧
    linesMatchAt ml (splitLinesOn (pyStrip r)) ls = true ∧
    ((List.range ls).all fun k =>
      decide (k < cur) || !(linesMatchAt ml (splitLinesOn (pyStrip r)) k)) = true ∧
    create_mapping_step ml (acc, cur, none) (.tag e) =
      (acc ++ [{ html_element_id := e.mappingId, html_content := e.serialized,
                 html_tag := e.name,
                 markdown_line_start := ls + 1,
                 markdown_line_end := ls + (splitLinesOn (pyStrip r)).length,
                 markdown_content := pyStrip r }],
       ls + (splitLinesOn (pyStrip r)).length - 1, none) := by
  rcases find_content_lines_some ml (pyStrip r) cur ls le hfind with ⟨h1, _, h3, h4, h5⟩
  have hL : 1 ≤ (splitLinesOn (pyStrip r)).length := splitLinesOn_length_pos _
  refine ⟨h1, h3, ?_, ?_⟩
  · rw [List.all_eq_true]
    intro k hk
    rw [List.mem_range] at hk
    by_cases hkc : k < cur
    · simp [hkc]
    · have : linesMatchAt ml (splitLinesOn (pyStrip r)) k = false :=
        h5 k (by omega) hk
      simp [this]
  · rw [create_mapping_step_record ml acc cur e r ls le hid hr hne hfind]
    have he1 : le + 1 = ls + (splitLinesOn (pyStrip r)).length := by omega
    have he2 : le = ls + (splitLinesOn (pyStrip r)).length - 1 := by omega
    rw [he1, he2]

/-- C2, witness. -/
theorem c2_search_and_record_witness :
    xParagraph.mappingId ≠ [] ∧ xParagraph.rendered = Except.ok "x".data ∧
    pyStrip "x".data ≠ [] ∧
    find_content_lines (splitLinesOn "x".data) (pyStrip "x".data) 0 = some (0, 0) ∧
    (0 ≤ 0 ∧
      linesMatchAt (splitLinesOn "x".data) (splitLinesOn (pyStrip "x".data)) 0 = true ∧
      ((List.range 0).all fun k =>
        decide (k < 0) ||
          !(linesMatchAt (splitLinesOn "x".data) (splitLinesOn (pyStrip "x".data)) k)) = true ∧
      create_mapping_step (splitLinesOn "x".data) ([], 0, none) (.tag xParagraph) =
        ([{ html_element_id := xParagraph.mappingId,
            html_content := xParagraph.serialized,
            html_tag := xParagraph.name,
            markdown_line_start := 0 + 1,
            markdown_line_end := 0 + (splitLinesOn (pyStrip "x".data)).length,
            markdown_content := pyStrip "x".data }],
         0 + (splitLinesOn (pyStrip "x".data)).length - 1, none)) :=
  ⟨by decide, rfl, by decide, by decide,
    by
      have h := c2_search_and_record (splitLinesOn "x".data) xParagraph "x".data [] 0 0 0
        (by decide) rfl (by decide) (by decide)
      simpa using h⟩

/-- C3: whenever some step of parsing, rendering or mapping raises inside
`convert_with_mapping`, the call returns (rather than propagates) a result
with `status = "error"`, empty `markdown_result`, empty `mappings`, the
exception's message as a non-empty `error`, and `original_html_length`
equal to the input's character count. -/
theorem c3_error_contract (outcome : RunOutcome) (html : Str)
    (st : List HtmlToMarkdownMapping) (msg : Str)
    (hraise : raisedMsg outcome = some msg) (hmsg : msg ≠ []) :
    (convert_with_mapping outcome html st).1.status = "error".data ∧
    (convert_with_mapping outcome html st).1.markdown_result = [] ∧
    (convert_with_mapping outcome html st).1.mappings = [] ∧
    (convert_with_mapping outcome html st).1.error = some msg ∧
    msg ≠ [] ∧
    (convert_with_mapping outcome html st).1.original_html_length = html.length := by
  cases outcome with
  | raiseBeforeMapping m =>
    simp only [raisedMsg] at hraise
    injection hraise with h
    subst h
    rw [convert_with_mapping_raise_eq]
    exact ⟨rfl, rfl, rfl, rfl, hmsg, rfl⟩
  | parsed children soupStr raw =>
    simp only [raisedMsg] at hraise
    rcases hcm : create_mapping children raw with ⟨nm, cur, exc⟩
    rw [hcm] at hraise
    simp only [] at hraise
    subst hraise
    rw [convert_with_mapping_parsed_err children soupStr raw html st nm cur msg hcm]
    exact ⟨rfl, rfl, rfl, rfl, hmsg, rfl⟩

/-- C3, witness. -/
theorem c3_error_contract_witness :
    raisedMsg (.raiseBeforeMapping "boom".data) = some "boom".data ∧
    "boom".data ≠ [] ∧
    ((convert_with_mapping (.raiseBeforeMapping "boom".data) "<p>".data []).1.status =
        "error".data ∧
      (convert_with_mapping (.raiseBeforeMapping "boom".data) "<p>".data []).1.markdown_result
        = [] ∧
      (convert_with_mapping (.raiseBeforeMapping "boom".data) "<p>".data []).1.mappings = [] ∧
      (convert_with_mapping (.raiseBeforeMapping "boom".data) "<p>".data []).1.error =
        some "boom".data ∧
      "boom".data ≠ [] ∧
      (convert_with_mapping (.raiseBeforeMapping "boom".data) "<p>".data
        []).1.original_html_length = "<p>".data.length) :=
  ⟨rfl, by decide,
    c3_error_contract (.raiseBeforeMapping "boom".data) "<p>".data [] "boom".data rfl
      (by decide)⟩

/-- C4: the numbered rendering prefixes line `i` (1-based) of the raw
markdown with `lineNumberTag i` and a space; `markdown_result` is that
numbered text stripped of leading and trailing whitespace and has exactly
as many lines as the raw markdown; past 999 the tag holds the full decimal
digits with no padding and no truncation. -/
theorem c4_line_numbering (raw : Str) :
    splitLinesOn (add_line_numbers raw) =
      ((splitLinesOn raw).enum.map fun p => lineNumberTag (p.1 + 1) ++ ' ' :: p.2) ∧
    (splitLinesOn (pyStrip (add_line_numbers raw))).length = (splitLinesOn raw).length ∧
    (∀ n, 1000 ≤ n → lineNumberTag n = '[' :: (natDigits n ++ [']'])) ∧
    ∀ (children : List SoupChild) (soupStr html : Str) (st : List HtmlToMarkdownMapping),
      (create_mapping children raw).2.2 = none →
      (convert_with_mapping (.parsed children soupStr raw) html st).1.markdown_result =
        pyStrip (add_line_numbers raw) := by
  refine ⟨?_, line_count_pyStrip_add_line_numbers raw,
    fun n hn => lineNumberTag_no_pad_past_999 n hn, ?_⟩
  · rw [splitLinesOn_add_line_numbers]
    rfl
  · intro children soupStr html st hok
    rcases hcm : create_mapping children raw with ⟨nm, cur, exc⟩
    rw [hcm] at hok
    simp only [] at hok
    subst hok
    rw [convert_with_mapping_parsed_ok children soupStr raw html st nm cur hcm]

/-- C4, witness. -/
theorem c4_line_numbering_witness :
    splitLinesOn (add_line_numbers "# Title\n\nHello".data) =
      ((splitLinesOn "# Title\n\nHello".data).enum.map fun p =>
        lineNumberTag (p.1 + 1) ++ ' ' :: p.2) ∧
    (splitLinesOn (pyStrip (add_line_numbers "# Title\n\nHello".data))).length =
      (splitLinesOn "# Title\n\nHello".data).length ∧
    (1000 ≤ 1000 ∧ lineNumberTag 1000 = '[' :: (natDigits 1000 ++ [']'])) ∧
    (create_mapping [] "# Title\n\nHello".data).2.2 = none ∧
    (convert_with_mapping (.parsed [] "".data "# Title\n\nHello".data) "".data
      []).1.markdown_result = pyStrip (add_line_numbers "# Title\n\nHello".data) :=
  ⟨(c4_line_numbering "# Title\n\nHello".data).1,
   (c4_line_numbering "# Title\n\nHello".data).2.1,
   ⟨by decide, (c4_line_numbering "# Title\n\nHello".data).2.2.1 1000 (by decide)⟩,
   rfl,
   (c4_line_numbering "# Title\n\nHello".data).2.2.2 [] "".data "".data [] rfl⟩

/-- C5: `find_html_by_line` scans the stored records in document order and
returns the full field set of the first record whose inclusive range
contains the line; it returns the empty result (never an error) when no
record contains it, in particular for `line_number ≤ 0` (when every stored
start is ≥ 1, as conversion guarantees) and for any line past every stored
record's end. -/
theorem c5_find_html_by_line (ms : List HtmlToMarkdownMapping) (n : Int) :
    (∀ d, find_html_by_line ms n = some d →
      ∃ m l₁ l₂, ms = l₁ ++ m :: l₂ ∧ d = mapping_to_dict m ∧ mappingContains m n = true ∧
        ∀ b ∈ l₁, mappingContains b n = false) ∧
    ((ms.all fun m => !mappingContains m n) = true → find_html_by_line ms n = none) ∧
    ((ms.all fun m => decide (1 ≤ m.markdown_line_start)) = true → n ≤ 0 →
      find_html_by_line ms n = none) ∧
    ((ms.all fun m => decide ((m.markdown_line_end : Int) < n)) = true →
      find_html_by_line ms n = none) := by
  refine ⟨?_, ?_, ?_, ?_⟩
  · intro d h
    unfold find_html_by_line at h
    rcases Option.map_eq_some'.mp h with ⟨m, hfind, hd⟩
    rcases find_first_of_find?_eq_some _ ms m hfind with ⟨l₁, l₂, hsplit, hm, hl₁⟩
    exact ⟨m, l₁, l₂, hsplit, hd.symm, hm, hl₁⟩
  · intro hall
    unfold find_html_by_line
    rw [List.find?_eq_none.mpr]
    · rfl
    · intro m hm
      have := (List.all_eq_true.mp hall) m hm
      simp only [Bool.not_eq_true'] at this
      simp [this]
  · intro hall hn
    unfold find_html_by_line
    rw [List.find?_eq_none.mpr]
    · rfl
    · intro m hm
      have h1 : 1 ≤ m.markdown_line_start := by
        have := (List.all_eq_true.mp hall) m hm
        simpa using this
      have h2 : ¬ ((m.markdown_line_start : Int) ≤ n) := by omega
      simp [mappingContains, h2]
  · intro hall
    unfold find_html_by_line
    rw [List.find?_eq_none.mpr]
    · rfl
    · intro m hm
      have h1 : (m.markdown_line_end : Int) < n := by
        have := (List.all_eq_true.mp hall) m hm
        simpa using this
      have h2 : ¬ (n ≤ (m.markdown_line_end : Int)) := by omega
      simp [mappingContains, h2]

/-- C5, witness. -/
theorem c5_find_html_by_line_witness :
    (([storedRec].all fun m => decide (1 ≤ m.markdown_line_start)) = true ∧
      (0 : Int) ≤ 0 ∧ find_html_by_line [storedRec] 0 = none) ∧
    (([storedRec].all fun m => decide ((m.markdown_line_end : Int) < 5)) = true ∧
      find_html_by_line [storedRec] 5 = none) ∧
    (([] : List HtmlToMarkdownMapping).all fun m => !mappingContains m 1) = true ∧
    find_html_by_line [] 1 = none :=
  ⟨⟨by decide, by decide,
      (c5_find_html_by_line [storedRec] 0).2.2.1 (by decide) (by decide)⟩,
   ⟨by decide, (c5_find_html_by_line [storedRec] 5).2.2.2 (by decide)⟩,
   by decide,
   (c5_find_html_by_line [] 1).2.1 (by decide)⟩

/-- C6: for every run in which parsing and rendering succeed (no step
raises), `convert_with_mapping` reports `status = "converted"` and produces
at most one mapping record per first-level element child. -/
theorem c6_converted_status_and_bound (children : List SoupChild) (soupStr raw html : Str)
    (st : List HtmlToMarkdownMapping)
    (hok : (create_mapping children raw).2.2 = none) :
    (convert_with_mapping (.parsed children soupStr raw) html st).1.status =
      "converted".data ∧
    (convert_with_mapping (.parsed children soupStr raw) html st).1.mappings.length ≤
      countTags children := by
  rcases hcm : create_mapping children raw with ⟨nm, cur, exc⟩
  rw [hcm] at hok
  have hexc : exc = none := hok
  subst hexc
  rw [convert_with_mapping_parsed_ok children soupStr raw html st nm cur hcm]
  refine ⟨rfl, ?_⟩
  show (nm.map mapping_to_dict).length ≤ countTags children
  rw [List.length_map]
  have h := create_mapping_length_le (splitLinesOn raw) children ([], 0, none)
  have hcm' : children.foldl (create_mapping_step (splitLinesOn raw)) ([], 0, none) =
      (nm, cur, none) := hcm
  rw [hcm'] at h
  simpa using h

/-- C6, witness. -/
theorem c6_converted_status_and_bound_witness :
    (create_mapping [SoupChild.tag xParagraph] "x".data).2.2 = none ∧
    (convert_with_mapping (.parsed [SoupChild.tag xParagraph] "<p>x</p>".data "x".data)
      "<p>x</p>".data []).1.status = "converted".data ∧
    (convert_with_mapping (.parsed [SoupChild.tag xParagraph] "<p>x</p>".data "x".data)
      "<p>x</p>".data []).1.mappings.length ≤ countTags [SoupChild.tag xParagraph] := by
  have h := c6_converted_status_and_bound [SoupChild.tag xParagraph] "<p>x</p>".data
    "x".data "<p>x</p>".data [] (by decide)
  exact ⟨by decide, h.1, h.2⟩

/-- C7: a first-level element with an identifier and a successful
individual render produces no record and leaves both the accumulated
records and the cursor unchanged exactly when its rendering strips to
nothing or no line run at or after the cursor matches it; in both cases no
exception is pending afterwards, so the loop (and the conversion) simply
continues. -/
theorem c7_silent_skips (ml : List Str) (e : TagElem) (r : Str)
    (acc : List HtmlToMarkdownMapping) (cur : Nat)
    (hid : e.mappingId ≠ []) (hr : e.rendered = Except.ok r) :
    (create_mapping_step ml (acc, cur, none) (.tag e) = (acc, cur, none) ↔
      (pyStrip r = [] ∨
        ((List.range ml.length).all fun k =>
          decide (k < cur) || !(linesMatchAt ml (splitLinesOn (pyStrip r)) k)) = true)) ∧
    (create_mapping_step ml (acc, cur, none) (.tag e)).2.2 = none := by
  have hbridge : find_content_lines ml (pyStrip r) cur = none ↔
      ((List.range ml.length).all fun k =>
        decide (k < cur) || !(linesMatchAt ml (splitLinesOn (pyStrip r)) k)) = true := by
    rw [find_content_lines_none_iff, List.all_eq_true]
    constructor
    · intro h k hk
      rw [List.mem_range] at hk
      by_cases hkc : k < cur
      · simp [hkc]
      · simp [h k (by omega) hk]
    · intro h k hk1 hk2
      have hk := h k (List.mem_range.mpr hk2)
      simp only [Bool.or_eq_true, decide_eq_true_eq] at hk
      rcases hk with hk | hk
      · omega
      · rw [Bool.not_eq_true'] at hk
        exact hk
  constructor
  · constructor
    · intro hstep
      by_cases hne : pyStrip r = []
      · exact Or.inl hne
      · cases hfind : find_content_lines ml (pyStrip r) cur with
        | none => exact Or.inr (hbridge.mp hfind)
        | some p =>
          rcases p with ⟨ls, le⟩
          rw [create_mapping_step_record ml acc cur e r ls le hid hr hne hfind] at hstep
          have h2 := congrArg (fun x : MapState => x.1.length) hstep
          simp only [List.length_append, List.length_singleton] at h2
          omega
    · intro hcase
      rcases hcase with hne | hall
      · exact create_mapping_step_skip_empty ml acc cur e r hid hr hne
      · by_cases hne : pyStrip r = []
        · exact create_mapping_step_skip_empty ml acc cur e r hid hr hne
        · exact create_mapping_step_skip_nomatch ml acc cur e r hid hr hne (hbridge.mpr hall)
  · by_cases hne : pyStrip r = []
    · rw [create_mapping_step_skip_empty ml acc cur e r hid hr hne]
    · cases hfind : find_content_lines ml (pyStrip r) cur with
      | none => rw [create_mapping_step_skip_nomatch ml acc cur e r hid hr hne hfind]
      | some p =>
        rcases p with ⟨ls, le⟩
        rw [create_mapping_step_record ml acc cur e r ls le hid hr hne hfind]

/-- C7, witness. -/
theorem c7_silent_skips_witness :
    blankParagraph.mappingId ≠ [] ∧ blankParagraph.rendered = Except.ok " ".data ∧
    ((create_mapping_step (splitLinesOn "x".data) ([], 0, none) (.tag blankParagraph) =
        ([], 0, none) ↔
      (pyStrip " ".data = [] ∨
        ((List.range (splitLinesOn "x".data).length).all fun k =>
          decide (k < 0) ||
            !(linesMatchAt (splitLinesOn "x".data) (splitLinesOn (pyStrip " ".data)) k)) =
          true)) ∧
      (create_mapping_step (splitLinesOn "x".data) ([], 0, none)
        (.tag blankParagraph)).2.2 = none) :=
  ⟨by decide, rfl,
    c7_silent_skips (splitLinesOn "x".data) blankParagraph " ".data [] 0 (by decide) rfl⟩

/-- C8, counterexample: two calls on the same input with a stable parser
and renderer still differ, because `_add_unique_ids` draws a fresh
`uuid.uuid4()` per call — here the first call generated identifier `a` and
the second `b`, so `html_with_ids` and the records' `html_element_id`
differ between the two returned results. -/
theorem c8_counterexample :
    (convert_with_mapping
      (.parsed [.tag titleHeadingA] "<h1 data-mapping-id=\"a\">Title</h1>".data
        "# Title".data)
      "<h1>Title</h1>".data []).1 ≠
    (convert_with_mapping
      (.parsed [.tag titleHeadingB] "<h1 data-mapping-id=\"b\">Title</h1>".data
        "# Title".data)
      "<h1>Title</h1>".data []).1 := by
  decide

/-- C8, amended: holding the whole opaque environment of the run fixed —
parser, renderer, and the generated identifiers — the returned result is a
pure function of the input and of that environment: it does not depend on
the mapping list stored on the service by earlier conversions, so repeated
conversion is idempotent up to the freshly generated identifiers. -/
theorem c8_pure_function_of_run (outcome : RunOutcome) (html : Str)
    (st₁ st₂ : List HtmlToMarkdownMapping) :
    (convert_with_mapping outcome html st₁).1 = (convert_with_mapping outcome html st₂).1 := by
  cases outcome with
  | raiseBeforeMapping msg => rfl
  | parsed children soupStr raw =>
    rcases hcm : create_mapping children raw with ⟨nm, cur, exc⟩
    cases exc with
    | some msg =>
      rw [convert_with_mapping_parsed_err children soupStr raw html st₁ nm cur msg hcm,
        convert_with_mapping_parsed_err children soupStr raw html st₂ nm cur msg hcm]
    | none =>
      rw [convert_with_mapping_parsed_ok children soupStr raw html st₁ nm cur hcm,
        convert_with_mapping_parsed_ok children soupStr raw html st₂ nm cur hcm]

/-- C9: when a step before the mapping phase raises, the caught error
result reports `mappings = []`, yet the service's stored mapping list is
left exactly as it was — later `find_html_by_line` calls still answer from
the previous conversion's records; the stored list is replaced only once
the mapping phase starts, as the last conjunct states for parsed runs. -/
theorem c9_early_raise_preserves_stored (msg html : Str)
    (st : List HtmlToMarkdownMapping) (children : List SoupChild) (soupStr raw : Str) :
    (convert_with_mapping (.raiseBeforeMapping msg) html st).2 = st ∧
    (convert_with_mapping (.raiseBeforeMapping msg) html st).1.mappings = [] ∧
    (convert_with_mapping (.raiseBeforeMapping msg) html st).1.status = "error".data ∧
    (∀ n : Int,
      find_html_by_line (convert_with_mapping (.raiseBeforeMapping msg) html st).2 n =
        find_html_by_line st n) ∧
    (convert_with_mapping (.parsed children soupStr raw) html st).2 =
      (create_mapping children raw).1 := by
  refine ⟨rfl, rfl, rfl, fun n => rfl, ?_⟩
  rcases hcm : create_mapping children raw with ⟨nm, cur, exc⟩
  cases exc with
  | some m =>
    rw [convert_with_mapping_parsed_err children soupStr raw html st nm cur m hcm]
  | none =>
    rw [convert_with_mapping_parsed_ok children soupStr raw html st nm cur hcm]

/-- C10: every record returned by a conversion has a well-formed range:
1-based start at least 1, start at most end, end within the line count of
the unnumbered raw markdown, and a width equal to the line count of the
record's `markdown_content` (the element's stripped individual
rendering). -/
theorem c10_wellformed_ranges (children : List SoupChild) (soupStr raw html : Str)
    (st : List HtmlToMarkdownMapping) (m : MappingDict)
    (hm : m ∈ (convert_with_mapping (.parsed children soupStr raw) html st).1.mappings) :
    1 ≤ m.markdown_line_start ∧ m.markdown_line_start ≤ m.markdown_line_end ∧
    m.markdown_line_end ≤ (splitLinesOn raw).length ∧
    m.markdown_line_end - m.markdown_line_start + 1 =
      (splitLinesOn m.markdown_content).length := by
  rcases hcm : create_mapping children raw with ⟨nm, cur, exc⟩
  cases exc with
  | some msg =>
    rw [convert_with_mapping_parsed_err children soupStr raw html st nm cur msg hcm] at hm
    have hm' : m ∈ ([] : List MappingDict) := hm
    cases hm'
  | none =>
    rw [convert_with_mapping_parsed_ok children soupStr raw html st nm cur hcm] at hm
    have hm' : m ∈ nm.map mapping_to_dict := hm
    rcases List.mem_map.mp hm' with ⟨m₀, hm₀, rfl⟩
    have h := create_mapping_range children raw
    rw [hcm] at h
    exact h m₀ hm₀

/-- C10, witness. -/
theorem c10_wellformed_ranges_witness :
    xpRecord ∈ (convert_with_mapping (.parsed [.tag xParagraph] "<p>x</p>".data "x".data)
      "<p>x</p>".data []).1.mappings ∧
    (1 ≤ xpRecord.markdown_line_start ∧
      xpRecord.markdown_line_start ≤ xpRecord.markdown_line_end ∧
      xpRecord.markdown_line_end ≤ (splitLinesOn "x".data).length ∧
      xpRecord.markdown_line_end - xpRecord.markdown_line_start + 1 =
        (splitLinesOn xpRecord.markdown_content).length) :=
  ⟨by decide, c10_wellformed_ranges [.tag xParagraph] "<p>x</p>".data "x".data
    "<p>x</p>".data [] xpRecord (by decide)⟩
